import Mathlib

/-!
Verification development for the Falcon repository explorer backend.

The Python sources are shallowly embedded: pure functions become Lean
functions over explicit data (database tables become lists of row
structures, machine integers become Int/Nat, fallible code returns
Except/Option, async generators become functions producing event lists).
String-processing primitives from Python (str.split, str.strip, fnmatch,
SQL LIKE) are re-implemented structurally over character lists so that
every definition is executable by the kernel.
-/

/- ------------------------------------------------------------------ -/
/- Character and list utilities shared by the embedded modules.       -/
/- ------------------------------------------------------------------ -/

/-- ASCII word character, the character class `[a-zA-Z0-9_]` used by the
literal-prefilter regex in `shell.py` (`Char.isAlphanum` is exactly
ASCII letters and digits). -/
def isWordChar (c : Char) : Bool := c.isAlphanum || c = '_'

/-- Accumulator pass for `wordRuns`: `cur` holds the reversed current
run of word characters. -/
def wordRunsAux : List Char → List Char → List (List Char)
  | cur, [] => if cur.isEmpty then [] else [cur.reverse]
  | cur, c :: cs =>
    if isWordChar c then wordRunsAux (c :: cur) cs
    else if cur.isEmpty then wordRunsAux [] cs
    else cur.reverse :: wordRunsAux [] cs

/-- Maximal runs of word characters in a character list, in order.
Mirrors what `re.findall(r"[a-zA-Z0-9_]{3,}", s)` scans over, before the
length filter. -/
def wordRuns (l : List Char) : List (List Char) :=
  wordRunsAux [] l

/-- Split a character list on a separator character; never returns `[]`.
Mirrors Python `str.split(sep)` for a one-character separator. -/
def splitOnCharList (sep : Char) : List Char → List (List Char)
  | [] => [[]]
  | c :: cs =>
    match splitOnCharList sep cs with
    | [] => [[c]]
    | h :: t => if c = sep then [] :: h :: t else (c :: h) :: t

/-- Python `content.split("\n")`. -/
def splitLines (s : String) : List String :=
  (splitOnCharList '\n' s.data).map (fun cs => String.mk cs)

/-- Substring test on character lists (SQL `content LIKE '%lit%'` for a
wildcard-free literal, and Python `lit in s`). -/
def substrB (needle : List Char) : List Char → Bool
  | [] => needle.isEmpty
  | c :: cs => needle.isPrefixOf (c :: cs) || substrB needle cs

/-- All suffixes of a list, longest first, ending with `[]`. -/
def suffixes : List α → List (List α)
  | [] => [[]]
  | c :: cs => (c :: cs) :: suffixes cs

/-- Wildcard matcher: `anySeq` matches any character sequence, `anyOne`
any single character, everything else itself.  With `('*', '?')` this is
Python `fnmatch.fnmatch` on bracket-free patterns (where `*` crosses `/`
freely); with `('%', '_')` it is SQL `LIKE`. -/
def wildMatch (anySeq anyOne : Char) : List Char → List Char → Bool
  | [], s => s.isEmpty
  | c :: ps, s =>
    if c = anySeq then
      (suffixes s).any (fun t => wildMatch anySeq anyOne ps t)
    else
      match s with
      | [] => false
      | d :: s2 => (c = anyOne || c = d) && wildMatch anySeq anyOne ps s2

/-- Python `fnmatch.fnmatch(name, pat)` for bracket-free patterns. -/
def fnmatchB (name pat : String) : Bool :=
  wildMatch '*' '?' pat.data name.data

/-- SQL `s LIKE pat` (no escape character). -/
def sqlLikeB (s pat : String) : Bool :=
  wildMatch '%' '_' pat.data s.data

/-- Drop leading characters belonging to `cs` (Python `str.lstrip`). -/
def lstripChars (cs : List Char) (l : List Char) : List Char :=
  l.dropWhile (fun c => c ∈ cs)

/-- Drop trailing characters belonging to `cs` (Python `str.rstrip`). -/
def rstripChars (cs : List Char) (l : List Char) : List Char :=
  ((l.reverse.dropWhile (fun c => c ∈ cs))).reverse

/-- Python `s.strip(chars)`. -/
def pyStrip (s : String) (cs : List Char) : String :=
  String.mk (rstripChars cs (lstripChars cs s.data))

/-- Python `s.lstrip(chars)`. -/
def pyLstrip (s : String) (cs : List Char) : String :=
  String.mk (lstripChars cs s.data)

/-- Stable insertion used by `sortBy`: the new element goes after every
element `b` with `le b a`. -/
def insertBy (le : α → α → Bool) (a : α) : List α → List α
  | [] => [a]
  | b :: bs => if le b a then b :: insertBy le a bs else a :: b :: bs

/-- Stable sort by a Boolean total preorder (model of SQL `ORDER BY` and
of Python `list.sort`, both of which are stable). -/
def sortBy (le : α → α → Bool) (l : List α) : List α :=
  l.foldl (fun acc x => insertBy le x acc) []

/-- Code-point lexicographic order on character lists, the model of the
`ORDER BY path` text ordering. -/
def charListLe : List Char → List Char → Bool
  | [], _ => true
  | _ :: _, [] => false
  | a :: as, b :: bs => if a = b then charListLe as bs else decide (a < b)

/-- Right-align a string in a field of `w` spaces: Python
`f"{s:>{w}}"`. -/
def padLeft (w : Nat) (s : String) : String :=
  String.mk (List.replicate (w - s.length) ' ') ++ s

/- ------------------------------------------------------------------ -/
/- Membership lemmas for the utilities.                               -/
/- ------------------------------------------------------------------ -/

theorem mem_insertBy {le : α → α → Bool} {a x : α} {l : List α} :
    x ∈ insertBy le a l ↔ x = a ∨ x ∈ l := by
  induction l with
  | nil => simp [insertBy]
  | cons b bs ih =>
    simp only [insertBy]
    split
    · simp only [List.mem_cons, ih]
      tauto
    · simp only [List.mem_cons]

theorem mem_sortBy_aux {le : α → α → Bool} {x : α} (l acc : List α) :
    x ∈ l.foldl (fun acc x => insertBy le x acc) acc ↔ x ∈ acc ∨ x ∈ l := by
  induction l generalizing acc with
  | nil => simp
  | cons b bs ih =>
    simp only [List.foldl_cons, ih, mem_insertBy, List.mem_cons]
    tauto

theorem mem_sortBy {le : α → α → Bool} {x : α} {l : List α} :
    x ∈ sortBy le l ↔ x ∈ l := by
  simp [sortBy, mem_sortBy_aux]

/- ------------------------------------------------------------------ -/
/- Data model: ingested file rows (table `files`).                    -/
/- ------------------------------------------------------------------ -/

/-- One row of the `files` table produced by the ingestion pipeline.
`extension` is the lowercased suffix with leading dot, or none;
`content` is null exactly for directories. -/
structure FileRow where
  repo_id : String
  path : String
  name : String
  extension : Option String
  parent_path : String
  depth : Nat
  is_directory : Bool
  content : Option String
deriving DecidableEq

/- ------------------------------------------------------------------ -/
/- shell.py: the three virtual shell tools.                           -/
/- ------------------------------------------------------------------ -/

def MAX_LIST_RESULTS : Nat := 200
def MAX_FILE_LINES : Nat := 500
def MAX_SEARCH_MATCHES : Nat := 50

/-- Ordering of the glob-mode query `ORDER BY path`. -/
def pathRowLe (a b : FileRow) : Bool := charListLe a.path.data b.path.data

/-- Ordering of the directory-mode query
`ORDER BY is_directory DESC, name`. -/
def dirRowLe (a b : FileRow) : Bool :=
  if a.is_directory = b.is_directory then charListLe a.name.data b.name.data
  else a.is_directory

/-- The rows the glob branch of `list_files` retrieves and keeps:
all rows of the repo in path order, filtered with `fnmatch`. -/
def list_files_glob_matched (files : List FileRow) (repo_id : String)
    (pattern : String) : List FileRow :=
  (sortBy pathRowLe (files.filter (fun r => r.repo_id = repo_id))).filter
    (fun r => fnmatchB r.path pattern)

/-- The entry lines the glob branch prints (before the overflow notice):
capped at 200 results, directories rendered with a trailing slash. -/
def list_files_glob_entries (files : List FileRow) (repo_id : String)
    (pattern : String) : List String :=
  ((list_files_glob_matched files repo_id pattern).take MAX_LIST_RESULTS).map
    (fun r => if r.is_directory then r.path ++ "/" else r.path)

/-- Embeds `shell.list_files`: directory listing or glob filtering over the
ingested rows, returning one text blob. -/
def list_files (files : List FileRow) (repo_id : String)
    (path : String) : String :=
  let path1 := pyStrip path ['/']
  let path2 := if path1 = "." then "" else path1
  if path2.data.contains '*' || path2.data.contains '?' then
    let matched := list_files_glob_matched files repo_id path2
    if matched.isEmpty then
      "No files matching: " ++ path2
    else
      let entries := list_files_glob_entries files repo_id path2
      let entries :=
        if matched.length > MAX_LIST_RESULTS then
          entries ++ ["\n... " ++ toString (matched.length - MAX_LIST_RESULTS) ++
            " more results. Narrow your glob."]
        else entries
      String.intercalate "\n" entries
  else
    let rows := sortBy dirRowLe (files.filter
      (fun r => r.repo_id = repo_id && r.parent_path = path2))
    if rows.isEmpty then
      "ls: cannot access \x27" ++ (if path2 = "" then "." else path2) ++
        "\x27: No such file or directory"
    else
      String.intercalate "\n"
        (rows.map (fun r => if r.is_directory then r.name ++ "/" else r.name))

/-- The path normalization `read_file` applies before its lookup:
`path.strip("/").lstrip("./")`. -/
def normalizePath (p : String) : String :=
  pyLstrip (pyStrip p ['/']) ['.', '/']

/-- Python slice `l[s:e]` for integer bounds (negative indices count
from the end, everything clamps into range). -/
def pySlice (l : List α) (s e : Int) : List α :=
  let n := l.length
  let lo := if s < 0 then ((n : Int) + s).toNat else min s.toNat n
  let hi := if e < 0 then ((n : Int) + e).toNat else min e.toNat n
  (l.take hi).drop lo

/-- The slicing and rendering part of `shell.read_file`, from
`lines = row["content"].split("\n")` on: select the slice, cap at 500
lines, number them right-aligned and append the truncation notice. -/
def render_file_slice (content : String)
    (start_line end_line : Option Int) : String :=
      let lines := splitLines content
      let total := lines.length
      let sel :=
        match start_line with
        | some sl =>
          if sl < 0 then
            (pySlice lines sl (total : Int), (total : Int) + sl + 1)
          else
            let s : Int := (if sl = 0 then 1 else sl) - 1
            let e : Int :=
              match end_line with
              | none => (total : Int)
              | some el => if el = 0 then (total : Int) else el
            (pySlice lines s e, s + 1)
        | none =>
          let e : Int :=
            match end_line with
            | none => (total : Int)
            | some el => if el = 0 then (total : Int) else el
          (pySlice lines 0 e, 1)
      let selected0 := sel.1
      let first_num := sel.2
      let truncated := decide (selected0.length > MAX_FILE_LINES)
      let selected :=
        if selected0.length > MAX_FILE_LINES then selected0.take MAX_FILE_LINES
        else selected0
      let width := (toString (first_num + (selected.length : Int) - 1)).length
      let output := List.mapIdx
        (fun i line => padLeft width (toString (first_num + (i : Int))) ++ " | " ++ line)
        selected
      let result := String.intercalate "\n" output
      if truncated then
        result ++ "\n\n... truncated (" ++ toString total ++
          " total lines). Use start_line/end_line to read specific sections."
      else result

/-- Embeds `shell.read_file`: normalize the path, fetch one file row and render
a numbered slice of its lines (`content.getD ""` never fires on real
rows: by the C7 invariant file rows carry non-null content). -/
def read_file (files : List FileRow) (repo_id : String) (path : String)
    (start_line end_line : Option Int) : String :=
  let path := normalizePath path
  match files.find? (fun r => r.repo_id = repo_id && r.path = path) with
  | none => "Error: " ++ path ++ ": No such file or directory"
  | some row =>
    if row.is_directory then "Error: " ++ path ++ ": Is a directory"
    else render_file_slice (row.content.getD "") start_line end_line

/-- Embeds `shell._extract_literals`: maximal word-character runs of length at
least 3, in order (`re.findall(r"[a-zA-Z0-9_]{3,}", pattern)`). -/
def extract_literals (pattern : String) : List String :=
  ((wordRuns pattern.data).filter (fun run => run.length ≥ 3)).map
    (fun run => String.mk run)

/-- The `--glob` argument rewriting of `search_code`: `*.<ext>` becomes
an extension-equality test; other globs a `name LIKE` test with
`*` as `%` and `?` as `_`. -/
def globPred (glob : Option String) (r : FileRow) : Bool :=
  match glob with
  | none => true
  | some g =>
    match g.data with
    | '*' :: '.' :: rest =>
      if rest ≠ [] && rest.all isWordChar then
        r.extension = some (String.mk ('.' :: rest))
      else
        sqlLikeB r.name (String.mk (g.data.map
          (fun c => if c = '*' then '%' else if c = '?' then '_' else c)))
    | _ =>
      sqlLikeB r.name (String.mk (g.data.map
        (fun c => if c = '*' then '%' else if c = '?' then '_' else c)))

/-- The conjunction of the `content LIKE '%lit%'` predicates of the
literal prefilter (SQL `LIKE` on a NULL content is not satisfied). -/
def literalsPass (literals : List String) (content : Option String) : Bool :=
  literals.all (fun lit =>
    match content with
    | some c => substrB lit.data c.data
    | none => false)

/-- The candidate rows of `search_code`: the SQL query joining the repo
scope, `is_directory = false`, one `LIKE '%lit%'` predicate per
extracted literal and the optional glob predicate, in path order. -/
def search_candidates (files : List FileRow) (repo_id : String)
    (literals : List String) (glob : Option String) : List FileRow :=
  sortBy pathRowLe (files.filter (fun r =>
    r.repo_id = repo_id && !r.is_directory &&
    literalsPass literals r.content &&
    globPred glob r))

/-- The full (uncapped) `path:line` match sequence of `search_code`:
the compiled pattern, modelled by the line predicate `matcher`
(`compiled.search(line)` of `re.compile(pattern)`), applied line by line
to the candidate rows in path order.  Line numbers are 1-based. -/
def search_matches (files : List FileRow) (repo_id : String)
    (pattern : String) (matcher : String → Bool) (glob : Option String) :
    List (String × Nat × String) :=
  (search_candidates files repo_id (extract_literals pattern) glob).flatMap
    (fun r => ((splitLines (r.content.getD "")).enum).filterMap
      (fun p => if matcher p.2 then some (r.path, p.1 + 1, p.2) else none))

/-- The emitted matches of `search_code`: the match sequence capped at
50 entries (the loop returns as soon as the fiftieth match is found). -/
def search_matches_capped (files : List FileRow) (repo_id : String)
    (pattern : String) (matcher : String → Bool) (glob : Option String) :
    List (String × Nat × String) :=
  (search_matches files repo_id pattern matcher glob).take MAX_SEARCH_MATCHES

/-- Embeds `shell.search_code` output text (for a pattern that compiled; the
invalid-regex early return never touches the store and is outside this
model). -/
def search_code (files : List FileRow) (repo_id : String)
    (pattern : String) (matcher : String → Bool) (glob : Option String) :
    String :=
  let rows := search_candidates files repo_id (extract_literals pattern) glob
  if rows.isEmpty then "No matches found for pattern: " ++ pattern
  else
    let ms := search_matches files repo_id pattern matcher glob
    if ms.isEmpty then "No matches found for pattern: " ++ pattern
    else
      let shown := (ms.take MAX_SEARCH_MATCHES).map
        (fun m => m.1 ++ ":" ++ toString m.2.1 ++ ":" ++ m.2.2)
      if ms.length ≥ MAX_SEARCH_MATCHES then
        String.intercalate "\n"
          (shown ++ ["\n... truncated at " ++ toString MAX_SEARCH_MATCHES ++
            " matches. Narrow with glob or a more specific pattern."])
      else
        String.intercalate "\n" shown

/- ------------------------------------------------------------------ -/
/- ingestion.py: skip lists, tree walk, ingest_repo.                  -/
/- ------------------------------------------------------------------ -/

def SKIP_DIRS : List String :=
  [".git", "node_modules", "__pycache__", ".venv", "venv", ".env",
   "vendor", "dist", "build", ".next", ".nuxt", "target", "bin", "obj",
   ".idea", ".vscode", ".DS_Store", ".svn", ".hg",
   "coverage", ".cache", ".parcel-cache", ".turbo"]

def SKIP_EXTENSIONS : List String :=
  [".png", ".jpg", ".jpeg", ".gif", ".svg", ".ico", ".bmp", ".webp",
   ".woff", ".woff2", ".ttf", ".eot", ".otf",
   ".mp3", ".mp4", ".wav", ".avi", ".mov", ".webm",
   ".zip", ".tar", ".gz", ".rar", ".7z", ".bz2",
   ".pdf", ".doc", ".docx", ".xls", ".xlsx",
   ".exe", ".dll", ".so", ".dylib", ".bin",
   ".pyc", ".pyo", ".class", ".o", ".a", ".obj", ".wasm",
   ".sqlite", ".db", ".pickle", ".pkl",
   ".map"]

def SKIP_FILENAMES : List String :=
  ["package-lock.json", "yarn.lock", "pnpm-lock.yaml",
   "poetry.lock", "Cargo.lock", "composer.lock",
   "Gemfile.lock", "go.sum",
   ".DS_Store", "Thumbs.db"]

/-- Embeds `config.MAX_FILE_SIZE`, default: 500 KiB. -/
def MAX_FILE_SIZE : Nat := 500 * 1024

/-- A node of the cloned working tree, the input of the walk.  For a
file, `content = none` models bytes that do not decode as UTF-8 (or an
OS error while reading); `size` models `stat().st_size`. -/
inductive FSEntry where
  | file (name : String) (size : Nat) (content : Option String)
  | dir (name : String) (children : List FSEntry)

/-- Embeds `ingestion._get_extension`: `os.path.splitext(filename)[1].lower()`.
The extension starts at the last dot, unless every character before that
dot is itself a dot (so `.gitignore` has no extension). -/
def get_extension (filename : String) : String :=
  let rev := filename.data.reverse
  let extRev := rev.takeWhile (fun c => c ≠ '.')
  match rev.dropWhile (fun c => c ≠ '.') with
  | [] => ""
  | _ :: before =>
    if before.any (fun c => c ≠ '.') then
      String.mk (('.' :: extRev.reverse).map Char.toLower)
    else ""

/-- Join repo-relative path segments with forward slashes. -/
def joinPath (segs : List String) : String :=
  String.intercalate "/" segs

/-- The record `_collect_file_records` emits for a visited directory
at `segs` (never called on the repo root). -/
def dirRecord (repo_id : String) (segs : List String) : FileRow :=
  { repo_id := repo_id, path := joinPath segs, name := segs.getLastD "",
    extension := none, parent_path := joinPath segs.dropLast,
    depth := segs.length, is_directory := true, content := none }

/-- The record `_collect_file_records` emits for a kept file `name`
inside the directory at `segs`, or `none` when a skip rule fires
(skip-filename, skip-extension, size cap, non-UTF-8 content). -/
def fileRecord (repo_id : String) (segs : List String) (name : String)
    (size : Nat) (content : Option String) : Option FileRow :=
  if SKIP_FILENAMES.contains name then none
  else if SKIP_EXTENSIONS.contains (get_extension name) then none
  else if size > MAX_FILE_SIZE then none
  else
    match content with
    | none => none
    | some text =>
      some { repo_id := repo_id, path := joinPath (segs ++ [name]),
             name := name,
             extension := if get_extension name = "" then none
               else some (get_extension name),
             parent_path := joinPath segs,
             depth := (segs ++ [name]).length, is_directory := false,
             content := some text }

mutual

/-- Embeds `ingestion._collect_file_records`: walk the tree below `segs`,
pruning `SKIP_DIRS` in place, emitting a directory record per visited
non-root directory and a file record per kept file.  (`os.walk` order is
filesystem-defined; the records of one directory are emitted here
interleaved with its subtrees, which permutes the unspecified order but
keeps the multiset of records.) -/
def collect_entry (repo_id : String) (segs : List String) :
    FSEntry → List FileRow
  | .file name size content =>
    (fileRecord repo_id segs name size content).toList
  | .dir name kids =>
    if SKIP_DIRS.contains name then []
    else dirRecord repo_id (segs ++ [name]) ::
      collect_entries repo_id (segs ++ [name]) kids

def collect_entries (repo_id : String) (segs : List String) :
    List FSEntry → List FileRow
  | [] => []
  | e :: rest =>
    collect_entry repo_id segs e ++ collect_entries repo_id segs rest

end

/-- Embeds `ingestion._collect_file_records` applied to the clone root. -/
def collect_file_records (repo_id : String) (tree : List FSEntry) :
    List FileRow :=
  collect_entries repo_id [] tree

/-- Embeds `ingestion._extract_repo_name`. -/
def extract_repo_name (url : String) : String :=
  let clean0 := String.mk (rstripChars ['/'] url.data)
  let clean := if ".git".data.isSuffixOf clean0.data then
      String.mk (clean0.data.take (clean0.data.length - 4))
    else clean0
  if substrB "://".data clean.data then
    let parts := (splitOnCharList '/' clean.data).map (fun cs => String.mk cs)
    if parts.length ≥ 2 then
      String.intercalate "/" (parts.drop (parts.length - 2))
    else parts.getLastD ""
  else if clean.data.contains ':' then
    ((splitOnCharList ':' clean.data).map (fun cs => String.mk cs)).getLastD ""
  else clean

/-- One row of the `repos` table. -/
structure RepoRow where
  id : String
  url : String
  name : String
  status : String
deriving DecidableEq

/-- The JSON reply of `ingest_repo`. -/
inductive IngestReply where
  | already_exists (repo_id : String)
  | ready (repo_id : String) (file_count : Nat)
deriving DecidableEq

/-- Embeds `ingestion.ingest_repo` over explicit table state.  `fresh_id` is
the generated UUID, `clone_result` the outcome of the shallow clone
(`Except.error` models a raised clone/walk failure).  Returns the new
`repos` and `files` tables and the reply, where `Except.error` models
the exception propagating to the caller. -/
def ingest_repo (repos : List RepoRow) (files : List FileRow)
    (url : String) (fresh_id : String)
    (clone_result : Except String (List FSEntry)) :
    List RepoRow × List FileRow × Except String IngestReply :=
  match repos.find? (fun r => r.url = url) with
  | some existing => (repos, files, .ok (.already_exists existing.id))
  | none =>
    let repos1 := repos ++ [RepoRow.mk fresh_id url (extract_repo_name url) "ingesting"]
    match clone_result with
    | .error e =>
      (repos1.map (fun r => if r.id = fresh_id then { r with status := "error" } else r),
        files, .error e)
    | .ok tree =>
      let records := collect_file_records fresh_id tree
      (repos1.map (fun r => if r.id = fresh_id then { r with status := "ready" } else r),
        files ++ records, .ok (.ready fresh_id records.length))

example : get_extension "login.py" = ".py" := by decide
example : get_extension "Dockerfile" = "" := by decide
example : get_extension "test.spec.ts" = ".ts" := by decide
example : get_extension ".gitignore" = "" := by decide
example : extract_repo_name "https://github.com/expressjs/express.git" = "expressjs/express" := by decide
example :
    collect_file_records "r" [.dir "src" [.file "a.py" 10 (some "x")], .file "big.py" 999999 (some "y")] =
      [{ repo_id := "r", path := "src", name := "src", extension := none,
         parent_path := "", depth := 1, is_directory := true, content := none },
       { repo_id := "r", path := "src/a.py", name := "a.py", extension := some ".py",
         parent_path := "src", depth := 2, is_directory := false, content := some "x" }] := by
  decide

example : extract_literals "def\\s+authenticate" = ["def", "authenticate"] := by decide
example : extract_literals "import\\s+(\\w+)" = ["import"] := by decide
example : extract_literals "\\d+\\.\\d+" = [] := by decide
example : fnmatchB "src/a.py" "**/*.py" = true := by decide
example : fnmatchB "a.py" "**/*.py" = false := by decide
example : splitLines "a\nb" = ["a", "b"] := by decide
example : normalizePath ".gitignore" = "gitignore" := by decide
example : normalizePath "/src/a.py/" = "src/a.py" := by decide

/- ------------------------------------------------------------------ -/
/- agent.py: the streaming ReAct loop, and the SSE wrapper of         -/
/- routers/repos.py (chat.event_stream).                              -/
/- ------------------------------------------------------------------ -/

def MAX_ITERATIONS : Nat := 15

/-- Parsed JSON tool arguments.  Their internal shape is irrelevant to
the loop: they are produced by `json.loads`, put into the `tool_start`
event and handed to the dispatcher, so a flat key-value list suffices. -/
abbrev ToolArgs := List (String × String)

/-- A message of the OpenAI conversation list built by `run_agent`.
`assistant` carries accumulated tool calls as `(id, name, arguments)`
triples; `assistant_text` models plain history entries. -/
inductive Msg where
  | system (content : String)
  | user (content : String)
  | assistant_text (content : String)
  | assistant (tool_calls : List (String × String × String))
  | tool (tool_call_id : String) (content : String)
deriving DecidableEq

/-- One `delta.tool_calls` fragment of a stream chunk. -/
structure ToolCallChunk where
  index : Nat
  id : String
  name : String
  arguments : Option String

/-- One stream chunk (`chunk.choices[0].delta`). -/
structure StreamChunk where
  tool_calls : List ToolCallChunk
  content : Option String

/-- One full model stream: the chunks it yields, then optionally the
exception it raises (`none` = clean end of stream).  The create call
itself raising is a turn with no chunks and `err` set. -/
structure StreamTurn where
  chunks : List StreamChunk
  err : Option String

/-- Accumulator entry of the `tool_calls` dict keyed by provider
index. -/
structure ToolAcc where
  id : String
  name : String
  arguments_str : String
deriving DecidableEq

/-- Events yielded by the agent loop (module docstring of agent.py). -/
inductive AgentEvent where
  | text_delta (content : String)
  | tool_start (name : String) (arguments : ToolArgs)
  | tool_end (name : String)
  | done
  | error (content : String)
deriving DecidableEq

/-- The external collaborators of the loop: the streaming model call,
`json.loads` (`none` models `JSONDecodeError`), and the tool dispatcher
`execute_tool` (`Except.error` models a raised exception). -/
structure AgentOracle where
  stream : List Msg → StreamTurn
  parse : String → Option ToolArgs
  exec : String → ToolArgs → Except String String

/-- Fold one tool-call fragment into the accumulator map: the first
fragment of an index contributes id and name, fragments with truthy
`arguments` append to `arguments_str`. -/
def accToolChunk (acc : List (Nat × ToolAcc)) (tc : ToolCallChunk) :
    List (Nat × ToolAcc) :=
  let acc1 :=
    if (acc.find? (fun p => p.1 = tc.index)).isSome then acc
    else acc ++ [(tc.index, ToolAcc.mk tc.id tc.name "")]
  match tc.arguments with
  | some s =>
    if s ≠ "" then
      acc1.map (fun p =>
        if p.1 = tc.index then
          (p.1, { p.2 with arguments_str := p.2.arguments_str ++ s })
        else p)
    else acc1
  | none => acc1

/-- Consume the whole stream: accumulate tool-call fragments, emit a
`text_delta` for every truthy `delta.content` immediately, in order. -/
def processChunks (chunks : List StreamChunk) :
    List (Nat × ToolAcc) × List AgentEvent :=
  chunks.foldl
    (fun st ch =>
      let acc := ch.tool_calls.foldl accToolChunk st.1
      let evs :=
        match ch.content with
        | some s => if s ≠ "" then st.2 ++ [AgentEvent.text_delta s] else st.2
        | none => st.2
      (acc, evs))
    ([], [])

/-- Execute the accumulated tool calls in index order: parse arguments
(malformed JSON becomes the empty object), emit `tool_start`, dispatch,
emit `tool_end`, collect the `tool` result messages.  A raised tool
exception (`Except.error`) aborts after the `tool_start` of the failing
call. -/
def execCalls (o : AgentOracle) :
    List (Nat × ToolAcc) → List AgentEvent × Except String (List Msg)
  | [] => ([], .ok [])
  | (_, tc) :: rest =>
    let args := (o.parse tc.arguments_str).getD []
    match o.exec tc.name args with
    | .error m => ([AgentEvent.tool_start tc.name args], .error m)
    | .ok result =>
      let nxt := execCalls o rest
      (AgentEvent.tool_start tc.name args :: AgentEvent.tool_end tc.name :: nxt.1,
        match nxt.2 with
        | .error m => .error m
        | .ok msgs => .ok (Msg.tool tc.id result :: msgs))

/-- The closing text delta of the iteration-cap branch. -/
def capMessage : String :=
  "\n\n---\nI\x27ve reached the maximum exploration depth. " ++
    "Here\x27s my best answer based on what I\x27ve found so far."

/-- The `for iteration in range(MAX_ITERATIONS)` loop of `run_agent`.
Returns the yielded events, the exception escaping the generator if
any, and the number of model calls made.  Fuel 0 is the loop falling
off the end: yield the cap text delta and `done`. -/
def agentLoop (o : AgentOracle) : Nat → List Msg → List AgentEvent × Option String × Nat
  | 0, _ => ([AgentEvent.text_delta capMessage, AgentEvent.done], none, 0)
  | fuel + 1, msgs =>
    let turn := o.stream msgs
    let st := processChunks turn.chunks
    match turn.err with
    | some m => (st.2, some m, 1)
    | none =>
      if st.1.isEmpty then (st.2 ++ [AgentEvent.done], none, 1)
      else
        let sorted := sortBy (fun a b => Nat.ble a.1 b.1) st.1
        let assistantMsg := Msg.assistant
          (sorted.map (fun p => (p.2.id, p.2.name, p.2.arguments_str)))
        let ex := execCalls o sorted
        match ex.2 with
        | .error m => (st.2 ++ ex.1, some m, 1)
        | .ok toolMsgs =>
          let nxt := agentLoop o fuel (msgs ++ [assistantMsg] ++ toolMsgs)
          (st.2 ++ ex.1 ++ nxt.1, nxt.2.1, nxt.2.2 + 1)

/-- The system prompt from tools/definitions.py.  Its text is never
inspected by the loop; only its position in the message list matters. -/
def SYSTEM_PROMPT : String := "system prompt"

/-- Embeds `agent.run_agent` as the list of events it yields and the exception
escaping the generator, if any (plus the model-call count). -/
def run_agent (o : AgentOracle) (question : String) (history : List Msg) :
    List AgentEvent × Option String × Nat :=
  agentLoop o MAX_ITERATIONS
    ([Msg.system SYSTEM_PROMPT] ++ history ++ [Msg.user question])

/-- Embeds `routers/repos.py chat.event_stream`: iterate `run_agent` inside
try/except, forwarding every event (as an SSE data frame) and turning a
raised exception into a final error event. -/
def event_stream (o : AgentOracle) (question : String) (history : List Msg) :
    List AgentEvent :=
  let r := run_agent o question history
  r.1 ++ (match r.2.1 with | some m => [AgentEvent.error m] | none => [])

/- ------------------------------------------------------------------ -/
/- app/queue/job_queue.py: completion and failure handling.           -/
/- ------------------------------------------------------------------ -/

/-- One row of the `jobs` table (the fields `_run_job`, `_complete_job`
and `_fail_job` read or write). -/
structure JobRow where
  id : String
  wiki_id : String
  status : String
  attempts : Nat
  max_attempts : Nat
  error_message : Option String
  completed_at : Option Nat
deriving DecidableEq

/-- One row of the `wikis` table (the fields `_fail_job` touches). -/
structure WikiRow where
  id : String
  status : String
  error_message : Option String
deriving DecidableEq

/-- The SQLite state the orchestrator mutates. -/
structure QueueDB where
  jobs : List JobRow
  wikis : List WikiRow
deriving DecidableEq

/-- Embeds `JobOrchestrator._complete_job`. -/
def complete_job (db : QueueDB) (job_id : String) (now : Nat) : QueueDB :=
  { db with jobs := db.jobs.map (fun (j : JobRow) =>
      if j.id = job_id then
        { j with status := "completed", completed_at := some now }
      else j) }

/-- Embeds `JobOrchestrator._fail_job`: retry (back to queued) while
`attempts < max_attempts`, else final failure of the job and of the
owning wiki, looked up through the job row. -/
def fail_job (db : QueueDB) (job_id : String) (error : String)
    (attempts max_attempts : Nat) (now : Nat) : QueueDB :=
  if attempts < max_attempts then
    { db with jobs := db.jobs.map (fun (j : JobRow) =>
        if j.id = job_id then
          { j with status := "queued", error_message := some error }
        else j) }
  else
    let db1 := { db with jobs := db.jobs.map (fun (j : JobRow) =>
      if j.id = job_id then
        { j with status := "failed", error_message := some error,
                 completed_at := some now }
      else j) }
    match db1.jobs.find? (fun j => j.id = job_id) with
    | none => db1
    | some row =>
      { db1 with wikis := db1.wikis.map (fun (w : WikiRow) =>
          if w.id = row.wiki_id then
            { w with status := "failed", error_message := some error }
          else w) }

/-- Embeds `JobOrchestrator._run_job` after the claim: `job` is the row the
atomic claim statement returned (so `job.attempts` is already
incremented), `outcome` the result of `pipeline.execute()`. -/
def run_job (db : QueueDB) (job : JobRow) (outcome : Except String Unit)
    (now : Nat) : QueueDB :=
  match outcome with
  | .ok _ => complete_job db job.id now
  | .error e => fail_job db job.id e job.attempts job.max_attempts now

/- ------------------------------------------------------------------ -/
/- app/services/chat_service.py: the lexical context selector.        -/
/- ------------------------------------------------------------------ -/

/-- Accumulator pass collecting maximal runs of characters satisfying
`p` (generalization of `wordRunsAux`). -/
def runsAux (p : Char → Bool) : List Char → List Char → List (List Char)
  | cur, [] => if cur.isEmpty then [] else [cur.reverse]
  | cur, c :: cs =>
    if p c then runsAux p (c :: cur) cs
    else if cur.isEmpty then runsAux p [] cs
    else cur.reverse :: runsAux p [] cs

/-- Python `str.split()` with no argument: split on whitespace runs,
dropping empty tokens. -/
def pySplit (s : String) : List String :=
  (runsAux (fun c => !c.isWhitespace) [] s.data).map (fun cs => String.mk cs)

/-- Python `str.lower()` (ASCII case folding). -/
def lowerStr (s : String) : String :=
  String.mk (s.data.map Char.toLower)

/-- Python `s.replace(sub, "")` (leftmost, non-overlapping), driven by
a fuel argument so that the recursion is structural; `removeSub` below
supplies fuel `l.length`, which bounds the number of steps. -/
def removeSubAux (sub : List Char) : Nat → List Char → List Char
  | 0, l => l
  | _, [] => []
  | fuel + 1, c :: cs =>
    if sub.isPrefixOf (c :: cs) && !sub.isEmpty then
      removeSubAux sub fuel (cs.drop (sub.length - 1))
    else c :: removeSubAux sub fuel cs

/-- Python `s.replace(sub, "")`. -/
def removeSub (sub l : List Char) : List Char :=
  removeSubAux sub l.length l

/-- One page entry of `manifest["pages"]` with the fields the selector
reads (`page.get` defaults already folded in). -/
structure ManifestPage where
  slug : String
  title : String
  summary : String
  key_exports : List String
  source_files : List String
deriving DecidableEq

/-- The transformed source-file name the selector matches against:
`f.split("/")[-1].replace("_", " ").replace(".py", "")`. -/
def sourceFileName (f : String) : String :=
  let base := ((splitOnCharList '/' f.data).getLastD [])
  String.mk (removeSub ".py".data (base.map (fun c => if c = '_' then ' ' else c)))

/-- The score `ChatService._select_context_pages` accumulates for one
page, with Python float arithmetic modelled as exact rationals. -/
def pageScore (question_lower : String) (question_terms : List String)
    (page : ManifestPage) : ℚ :=
  let n : ℚ := (max question_terms.length 1 : Nat)
  let title_terms := (pySplit (lowerStr page.title)).dedup
  let overlap := question_terms.filter (fun t => t ∈ title_terms)
  let score : ℚ := 0
  let score := if !overlap.isEmpty then score + 3 * (overlap.length : ℚ) / n else score
  let summary_terms := (pySplit (lowerStr page.summary)).dedup
  let overlap2 := question_terms.filter (fun t => t ∈ summary_terms)
  let score := if !overlap2.isEmpty then score + 2 * (overlap2.length : ℚ) / n else score
  let score := page.key_exports.foldl
    (fun s e => if substrB (lowerStr e).data question_lower.data then s + 5 else s)
    score
  let score := page.source_files.foldl
    (fun s f =>
      if question_terms.any (fun t => substrB t.data (lowerStr (sourceFileName f)).data)
      then s + 2 else s)
    score
  score

/-- Embeds `ChatService._select_context_pages`: score every page, keep the
strictly positive ones in manifest order, stable-sort descending by
score, return the first `max_pages` slugs. -/
def select_context_pages (pages : List ManifestPage) (question : String)
    (max_pages : Nat) : List String :=
  let question_lower := lowerStr question
  let question_terms := (pySplit question_lower).dedup
  let scored := pages.foldl
    (fun acc page =>
      let score := pageScore question_lower question_terms page
      if score > 0 then acc ++ [(page.slug, score)] else acc)
    []
  let sorted := sortBy (fun a b => decide (b.2 ≤ a.2)) scored
  (sorted.take max_pages).map (fun p => p.1)

/- ------------------------------------------------------------------ -/
/- Specification-side definitions used by the claims.                 -/
/- ------------------------------------------------------------------ -/

/-- The invariant of claim C7 for a single record. -/
def recordInv (rec : FileRow) : Prop :=
  (rec.is_directory = true → rec.content = none) ∧
  (rec.is_directory = false → rec.content ≠ none)

/- ------------------------------------------------------------------ -/
/- C7: ingestion content invariant.                                   -/
/- ------------------------------------------------------------------ -/

theorem fileRecord_some_inv {rid : String} {segs : List String}
    {name : String} {size : Nat} {content : Option String} {rec : FileRow}
    (h : fileRecord rid segs name size content = some rec) :
    rec.is_directory = false ∧ rec.content ≠ none := by
  unfold fileRecord at h
  repeat' split at h
  all_goals
    first
      | (injection h with h; subst h; exact ⟨rfl, by simp⟩)
      | simp at h

mutual

theorem collect_entry_inv (rid : String) (segs : List String) (e : FSEntry) :
    ∀ rec ∈ collect_entry rid segs e, recordInv rec :=
  match e with
  | .file name size content => by
    intro rec hrec
    simp only [collect_entry] at hrec
    cases hfr : fileRecord rid segs name size content with
    | none => rw [hfr] at hrec; simp [Option.toList] at hrec
    | some r =>
      rw [hfr] at hrec
      simp only [Option.toList, List.mem_singleton] at hrec
      subst hrec
      have hinv := fileRecord_some_inv hfr
      exact ⟨fun hd => absurd hd (by simp [hinv.1]), fun _ => hinv.2⟩
  | .dir name kids => by
    intro rec hrec
    simp only [collect_entry] at hrec
    split at hrec
    · simp at hrec
    · rcases List.mem_cons.mp hrec with h | h
      · subst h
        exact ⟨fun _ => rfl, fun hd => by simp [dirRecord] at hd⟩
      · exact collect_entries_inv rid (segs ++ [name]) kids rec h

theorem collect_entries_inv (rid : String) (segs : List String)
    (l : List FSEntry) :
    ∀ rec ∈ collect_entries rid segs l, recordInv rec :=
  match l with
  | [] => by intro rec h; simp [collect_entries] at h
  | e :: rest => by
    intro rec h
    simp only [collect_entries, List.mem_append] at h
    cases h with
    | inl h => exact collect_entry_inv rid segs e rec h
    | inr h => exact collect_entries_inv rid segs rest rec h

end

/-- C7: every record produced by the ingestion walk satisfies:
`is_directory = true` implies `content` is null, and
`is_directory = false` implies `content` is non-null (oversized or
non-UTF-8 files are omitted entirely rather than stored with null
content). -/
theorem ingestion_records_content_invariant (repo_id : String)
    (tree : List FSEntry) (rec : FileRow)
    (h : rec ∈ collect_file_records repo_id tree) :
    (rec.is_directory = true → rec.content = none) ∧
    (rec.is_directory = false → rec.content ≠ none) :=
  collect_entries_inv repo_id [] tree rec h

theorem ingestion_records_content_invariant_witness :
    ((dirRecord "r" ["src"]).is_directory = true →
      (dirRecord "r" ["src"]).content = none) ∧
    ((dirRecord "r" ["src"]).is_directory = false →
      (dirRecord "r" ["src"]).content ≠ none) :=
  ingestion_records_content_invariant "r"
    [.dir "src" [.file "a.py" 10 (some "x")]] (dirRecord "r" ["src"])
    (by decide)

/- ------------------------------------------------------------------ -/
/- C5: job failure and retry handling.                                -/
/- ------------------------------------------------------------------ -/

theorem eq_of_mem_of_nodup_map {α β : Type} {f : α → β} {l : List α}
    {x y : α} (h : (l.map f).Nodup) (hx : x ∈ l) (hy : y ∈ l)
    (hf : f x = f y) : x = y := by
  induction l with
  | nil => simp at hx
  | cons a l ih =>
    simp only [List.map_cons, List.nodup_cons] at h
    rcases List.mem_cons.mp hx with rfl | hx' <;>
      rcases List.mem_cons.mp hy with rfl | hy'
    · rfl
    · exact absurd (hf ▸ List.mem_map_of_mem f hy') h.1
    · exact absurd (hf ▸ List.mem_map_of_mem f hx') h.1
    · exact ih h.2 hx' hy'

theorem fail_job_final_jobs {db : QueueDB} {jid e : String}
    {att matt now : Nat} (h : ¬ att < matt) :
    (fail_job db jid e att matt now).jobs =
      db.jobs.map (fun (j : JobRow) => if j.id = jid then
        { j with status := "failed", error_message := some e,
                 completed_at := some now } else j) := by
  simp only [fail_job, if_neg h]
  split <;> rfl

theorem fail_job_final_wikis {db : QueueDB} {jid e : String}
    {att matt now : Nat} {row : JobRow} (h : ¬ att < matt)
    (hrow : (db.jobs.map (fun (j : JobRow) => if j.id = jid then
        { j with status := "failed", error_message := some e,
                 completed_at := some now } else j)).find?
        (fun j => j.id = jid) = some row) :
    (fail_job db jid e att matt now).wikis =
      db.wikis.map (fun (w : WikiRow) => if w.id = row.wiki_id then
        { w with status := "failed", error_message := some e } else w) := by
  simp only [fail_job, if_neg h, hrow]

/-- C5: when a job's execution raises an exception, the job returns to
`queued` while `attempts < max_attempts` and otherwise is marked
`failed` with the error attached and the owning wiki marked `failed`
with the same error; on success the job is marked `completed`. -/
theorem run_job_retry_or_fail (db : QueueDB) (job : JobRow)
    (outcome : Except String Unit) (now : Nat)
    (hmem : job ∈ db.jobs)
    (hids : (db.jobs.map (fun j => j.id)).Nodup) :
    (outcome = .ok () →
      ∀ j ∈ (run_job db job outcome now).jobs, j.id = job.id →
        j.status = "completed") ∧
    (∀ e, outcome = .error e → job.attempts < job.max_attempts →
      ∀ j ∈ (run_job db job outcome now).jobs, j.id = job.id →
        j.status = "queued") ∧
    (∀ e, outcome = .error e → job.max_attempts ≤ job.attempts →
      (∀ j ∈ (run_job db job outcome now).jobs, j.id = job.id →
        j.status = "failed" ∧ j.error_message = some e) ∧
      (∀ w ∈ (run_job db job outcome now).wikis, w.id = job.wiki_id →
        w.status = "failed" ∧ w.error_message = some e)) := by
  refine ⟨?_, ?_, ?_⟩
  · rintro rfl j hj hid
    simp only [run_job, complete_job, List.mem_map] at hj
    obtain ⟨j0, hj0, rfl⟩ := hj
    by_cases h : j0.id = job.id
    · simp [h]
    · simp only [if_neg h] at hid ⊢
      exact absurd hid h
  · rintro e rfl hlt j hj hid
    simp only [run_job, fail_job, if_pos hlt, List.mem_map] at hj
    obtain ⟨j0, hj0, rfl⟩ := hj
    by_cases h : j0.id = job.id
    · simp [h]
    · simp only [if_neg h] at hid ⊢
      exact absurd hid h
  · rintro e rfl hle
    have hnlt : ¬ job.attempts < job.max_attempts := Nat.not_lt.mpr hle
    constructor
    · intro j hj hid
      simp only [run_job, fail_job_final_jobs hnlt, List.mem_map] at hj
      obtain ⟨j0, hj0, rfl⟩ := hj
      by_cases h : j0.id = job.id
      · simp [h]
      · simp only [if_neg h] at hid ⊢
        exact absurd hid h
    · intro w hw hid
      -- the wiki lookup goes through the updated jobs table
      have hfind :
          ((db.jobs.map (fun (j : JobRow) =>
            if j.id = job.id then
              { j with status := "failed", error_message := some e,
                       completed_at := some now }
            else j)).find? (fun j => j.id = job.id)).isSome := by
        rw [List.find?_isSome]
        refine ⟨if job.id = job.id then
          { job with status := "failed", error_message := some e,
                     completed_at := some now } else job,
          List.mem_map_of_mem _ hmem, ?_⟩
        simp
      obtain ⟨row, hrow⟩ := Option.isSome_iff_exists.mp hfind
      simp only [run_job, fail_job_final_wikis hnlt hrow] at hw
      have hrowmem := List.mem_of_find?_eq_some hrow
      have hrowid : row.id = job.id := by
        have := List.find?_some hrow
        simpa using this
      -- identify the found row's owner with the claimed job's wiki
      have hrow_wiki : row.wiki_id = job.wiki_id := by
        obtain ⟨j0, hj0, rfl⟩ := List.mem_map.mp hrowmem
        by_cases h : j0.id = job.id
        · have hj0eq : j0 = job := eq_of_mem_of_nodup_map hids hj0 hmem h
          subst hj0eq
          simp
        · simp only [if_neg h] at hrowid
          exact absurd hrowid h
      simp only [List.mem_map] at hw
      obtain ⟨w0, hw0, rfl⟩ := hw
      by_cases h : w0.id = row.wiki_id
      · simp [h]
      · simp only [if_neg h] at hid ⊢
        rw [hrow_wiki] at h
        exact absurd hid h

theorem run_job_retry_or_fail_witness :
    (WikiRow.mk "w1" "failed" (some "boom")).status = "failed" ∧
    (WikiRow.mk "w1" "failed" (some "boom")).error_message = some "boom" :=
  ((run_job_retry_or_fail
      (QueueDB.mk [JobRow.mk "j1" "w1" "running" 3 3 none none]
        [WikiRow.mk "w1" "generating" none])
      (JobRow.mk "j1" "w1" "running" 3 3 none none)
      (.error "boom") 7 (by decide) (by decide)).2.2 "boom" rfl
      (by decide)).2 (WikiRow.mk "w1" "failed" (some "boom")) (by decide)
    (by decide)

/- ------------------------------------------------------------------ -/
/- C2: ingestion dedup ignores the repo status.                       -/
/- ------------------------------------------------------------------ -/

/-- C2 (failing input): a `repos` row in status `error` exists for the
URL; `ingest_repo` still replies `already_exists` with that row's id and
performs no fresh ingestion, although no `ready` row exists — the
status fetched by the dedup query is never checked. -/
theorem ingest_repo_dedup_ignores_status :
    ingest_repo [RepoRow.mk "r1" "u" "a/b" "error"] [] "u" "fresh" (.ok [])
      = ([RepoRow.mk "r1" "u" "a/b" "error"], [],
         .ok (.already_exists "r1")) := rfl

/- ------------------------------------------------------------------ -/
/- C10: read_file path normalization.                                 -/
/- ------------------------------------------------------------------ -/

theorem dropWhile_dropWhile_of_imp {α : Type} {p q : α → Bool}
    (h : ∀ a, q a = true → p a = true) (l : List α) :
    (l.dropWhile p).dropWhile q = l.dropWhile p := by
  induction l with
  | nil => simp
  | cons c cs ih =>
    by_cases hc : p c = true
    · simp [List.dropWhile_cons, hc, ih]
    · have hqc : q c = false := by
        cases hq : q c
        · rfl
        · exact absurd (h c hq) hc
      simp [List.dropWhile_cons, hc, hqc]

theorem dropWhile_eq_self_of_head? {α : Type} {q : α → Bool} {l : List α}
    (h : ∀ a, l.head? = some a → q a = false) : l.dropWhile q = l := by
  cases l with
  | nil => rfl
  | cons c cs => simp [List.dropWhile_cons, h c rfl]

theorem head?_dropWhile_eq_some {α : Type} {q : α → Bool} {l : List α}
    {a : α} (h : (l.dropWhile q).head? = some a) : q a = false := by
  have := List.head?_dropWhile_not q l
  rw [h] at this
  exact this

/-- The normalization `path.strip("/").lstrip("./")` is idempotent, so
`read_file` gives the same answer on a path and on its normalized
form. -/
theorem normalizePath_idem (p : String) :
    normalizePath (normalizePath p) = normalizePath p := by
  unfold normalizePath pyLstrip pyStrip lstripChars rstripChars
  simp only []
  -- name the intermediate character lists
  set A := p.data.dropWhile (fun c => c ∈ ['/']) with hA
  set x := (A.reverse.dropWhile (fun c => c ∈ ['/'])).reverse with hx
  set y := x.dropWhile (fun c => c ∈ ['.', '/']) with hy
  -- step 1: a second lstrip of '/' does nothing
  have himp : ∀ c : Char, (c ∈ ['/'] : Bool) = true → (c ∈ ['.', '/'] : Bool) = true := by
    intro c hc
    simp only [List.mem_singleton, decide_eq_true_eq] at hc
    simp [hc]
  have h1 : y.dropWhile (fun c => c ∈ ['/']) = y := by
    rw [hy]
    exact dropWhile_dropWhile_of_imp himp x
  -- step 2: a second rstrip of '/' does nothing
  have h2 : y.reverse.dropWhile (fun c => c ∈ ['/']) = y.reverse := by
    apply dropWhile_eq_self_of_head?
    intro a ha
    have hyx : y <:+ x := hy ▸ List.dropWhile_suffix _
    have hpre : y.reverse <+: x.reverse := Iff.mpr List.reverse_prefix hyx
    obtain ⟨t, ht⟩ := hpre
    have hxrev : x.reverse = A.reverse.dropWhile (fun c => c ∈ ['/']) := by
      rw [hx, List.reverse_reverse]
    have hax : x.reverse.head? = some a := by
      rw [← ht, List.head?_append]
      cases hyrev : y.reverse with
      | nil => rw [hyrev] at ha; simp at ha
      | cons b bs =>
        rw [hyrev] at ha
        simp only [List.head?_cons] at ha ⊢
        simp [ha]
    have : (A.reverse.dropWhile (fun c => c ∈ ['/'])).head? = some a := by
      rw [← hxrev]; exact hax
    have hq := head?_dropWhile_eq_some this
    -- q a = false at '/' membership: goal wants the '/' predicate
    exact hq
  -- step 3: a second lstrip of './'' does nothing
  have h3 : y.dropWhile (fun c => c ∈ ['.', '/']) = y := by
    rw [hy]
    exact dropWhile_dropWhile_of_imp (fun a h => h) x
  -- assemble
  have hfinal :
      ((((y.dropWhile (fun c => c ∈ ['/'])).reverse.dropWhile
        (fun c => c ∈ ['/'])).reverse).dropWhile (fun c => c ∈ ['.', '/'])) = y := by
    rw [h1, h2, List.reverse_reverse]
    exact h3
  exact congrArg String.mk hfinal

/-- C10: `read_file` answers every path query as if the path had first
been stripped of leading and trailing slashes and of every leading
character in the set of dot and slash; in particular a root-level
dotfile `.gitignore` is looked up as `gitignore` and reports
`No such file or directory` even when a row with path `.gitignore`
exists. -/
theorem read_file_normalizes_path (files : List FileRow) (repo_id p : String)
    (start_line end_line : Option Int) :
    read_file files repo_id p start_line end_line =
      read_file files repo_id (normalizePath p) start_line end_line ∧
    read_file
      [FileRow.mk "r" ".gitignore" ".gitignore" none "" 1 false (some "x")]
      "r" ".gitignore" none none =
      "Error: gitignore: No such file or directory" := by
  constructor
  · unfold read_file
    rw [normalizePath_idem]
  · rfl

/- ------------------------------------------------------------------ -/
/- C3 and C6: agent loop event properties.                            -/
/- ------------------------------------------------------------------ -/

/-- Recognizer for error events. -/
def isErrorEvent : AgentEvent → Bool
  | .error _ => true
  | _ => false

theorem processChunks_events (chunks : List StreamChunk) :
    ∀ e ∈ (processChunks chunks).2, ∃ s, e = AgentEvent.text_delta s := by
  suffices h : ∀ (st : List (Nat × ToolAcc) × List AgentEvent),
      ∀ e ∈ (chunks.foldl
        (fun st ch =>
          let acc := ch.tool_calls.foldl accToolChunk st.1
          let evs :=
            match ch.content with
            | some s => if s ≠ "" then st.2 ++ [AgentEvent.text_delta s] else st.2
            | none => st.2
          (acc, evs)) st).2,
        e ∈ st.2 ∨ ∃ s, e = AgentEvent.text_delta s by
    intro e he
    rcases h ([], []) e he with h' | h'
    · simp at h'
    · exact h'
  induction chunks with
  | nil => intro st e he; exact Or.inl he
  | cons ch rest ih =>
    intro st e he
    rw [List.foldl_cons] at he
    rcases ih _ e he with h' | h'
    · dsimp only at h'
      cases hc : ch.content with
      | none => rw [hc] at h'; exact Or.inl h'
      | some s =>
        rw [hc] at h'
        dsimp only at h'
        by_cases hs : s ≠ ""
        · rw [if_pos hs] at h'
          rcases List.mem_append.mp h' with h'' | h''
          · exact Or.inl h''
          · exact Or.inr ⟨s, List.mem_singleton.mp h''⟩
        · rw [if_neg hs] at h'
          exact Or.inl h'
    · exact Or.inr h'

theorem execCalls_events (o : AgentOracle) (l : List (Nat × ToolAcc)) :
    ∀ e ∈ (execCalls o l).1,
      (∃ n a, e = AgentEvent.tool_start n a) ∨ ∃ n, e = AgentEvent.tool_end n := by
  induction l with
  | nil => intro e he; simp [execCalls] at he
  | cons hd rest ih =>
    intro e he
    simp only [execCalls] at he
    cases hex : o.exec hd.2.name ((o.parse hd.2.arguments_str).getD []) with
    | error m =>
      rw [hex] at he
      simp only [List.mem_singleton] at he
      exact Or.inl ⟨_, _, he⟩
    | ok result =>
      rw [hex] at he
      rcases List.mem_cons.mp he with rfl | he'
      · exact Or.inl ⟨_, _, rfl⟩
      · rcases List.mem_cons.mp he' with rfl | he''
        · exact Or.inr ⟨_, rfl⟩
        · exact ih e he''

theorem agentLoop_no_error (o : AgentOracle) :
    ∀ (fuel : Nat) (msgs : List Msg),
      ∀ e ∈ (agentLoop o fuel msgs).1, isErrorEvent e = false := by
  intro fuel
  induction fuel with
  | zero =>
    intro msgs e he
    simp only [agentLoop, List.mem_cons, List.mem_singleton] at he
    rcases he with rfl | rfl | he
    · rfl
    · rfl
    · simp at he
  | succ n ih =>
    intro msgs e he
    simp only [agentLoop] at he
    cases herr : (o.stream msgs).err with
    | some m =>
      rw [herr] at he
      obtain ⟨s, rfl⟩ := processChunks_events _ e he
      rfl
    | none =>
      rw [herr] at he
      by_cases hemp : (processChunks (o.stream msgs).chunks).1.isEmpty
      · rw [if_pos hemp] at he
        rcases List.mem_append.mp he with h' | h'
        · obtain ⟨s, rfl⟩ := processChunks_events _ e h'
          rfl
        · rw [List.mem_singleton.mp h']
          rfl
      · rw [if_neg hemp] at he
        cases hex : (execCalls o (sortBy (fun a b => Nat.ble a.1 b.1)
            (processChunks (o.stream msgs).chunks).1)).2 with
        | error m =>
          rw [hex] at he
          rcases List.mem_append.mp he with h' | h'
          · obtain ⟨s, rfl⟩ := processChunks_events _ e h'
            rfl
          · rcases execCalls_events o _ e h' with ⟨n', a', rfl⟩ | ⟨n', rfl⟩ <;> rfl
        | ok toolMsgs =>
          rw [hex] at he
          rcases List.mem_append.mp he with h' | h'
          · rcases List.mem_append.mp h' with h'' | h''
            · obtain ⟨s, rfl⟩ := processChunks_events _ e h''
              rfl
            · rcases execCalls_events o _ e h'' with ⟨n', a', rfl⟩ | ⟨n', rfl⟩ <;> rfl
          · exact ih _ e h'

/-- C3: an exception raised while consuming the model stream or while
executing a tool escapes `run_agent` and is turned by the SSE wrapper
into a final error event: the stream of events is the prefix yielded so
far, followed by exactly one `error` event, and nothing after it (no
`error` event occurs anywhere else). -/
theorem run_agent_error_event_terminal (o : AgentOracle) (question : String)
    (history : List Msg) (m : String)
    (h : (run_agent o question history).2.1 = some m) :
    event_stream o question history =
      (run_agent o question history).1 ++ [AgentEvent.error m] ∧
    ∀ e ∈ (run_agent o question history).1, isErrorEvent e = false := by
  constructor
  · simp only [event_stream, h]
  · intro e he
    exact agentLoop_no_error o MAX_ITERATIONS _ e he

/-- An oracle whose very first model stream raises. -/
def errOracle : AgentOracle :=
  AgentOracle.mk (fun _ => StreamTurn.mk [] (some "boom"))
    (fun _ => some []) (fun _ _ => .ok "r")

theorem run_agent_error_event_terminal_witness :
    event_stream errOracle "q" [] =
      (run_agent errOracle "q" []).1 ++ [AgentEvent.error "boom"] ∧
    ∀ e ∈ (run_agent errOracle "q" []).1, isErrorEvent e = false :=
  run_agent_error_event_terminal errOracle "q" [] "boom" (by decide)

theorem agentLoop_calls_le (o : AgentOracle) :
    ∀ (fuel : Nat) (msgs : List Msg), (agentLoop o fuel msgs).2.2 ≤ fuel := by
  intro fuel
  induction fuel with
  | zero => intro msgs; simp [agentLoop]
  | succ n ih =>
    intro msgs
    simp only [agentLoop]
    cases herr : (o.stream msgs).err with
    | some m => simp
    | none =>
      by_cases hemp : (processChunks (o.stream msgs).chunks).1 = []
      · simp [hemp]
      · rw [if_neg (by simpa using hemp)]
        cases hex : (execCalls o (sortBy (fun a b => Nat.ble a.1 b.1)
            (processChunks (o.stream msgs).chunks).1)).2 with
        | error m => simp
        | ok toolMsgs =>
          simp only []
          exact Nat.succ_le_succ (ih _)

/-- A model stub that always returns one tool call. -/
def stubOracle : AgentOracle :=
  AgentOracle.mk
    (fun _ => StreamTurn.mk
      [StreamChunk.mk [ToolCallChunk.mk 0 "call_1" "list_files" (some "\x7b\x7d")] none]
      none)
    (fun _ => some [])
    (fun _ _ => .ok "result")

/-- C6: the loop always terminates within `MAX_ITERATIONS = 15` model
calls, and a stub that always returns a tool call drives exactly 15
tool-calling iterations followed by one closing text delta announcing
the cap and a terminal `done`. -/
theorem run_agent_iteration_cap :
    (∀ (o : AgentOracle) (question : String) (history : List Msg),
      (run_agent o question history).2.2 ≤ MAX_ITERATIONS) ∧
    event_stream stubOracle "q" [] =
      (List.replicate MAX_ITERATIONS
        [AgentEvent.tool_start "list_files" [],
         AgentEvent.tool_end "list_files"]).flatten ++
      [AgentEvent.text_delta capMessage, AgentEvent.done] := by
  constructor
  · intro o question history
    exact agentLoop_calls_le o MAX_ITERATIONS _
  · decide

/- ------------------------------------------------------------------ -/
/- C4: read_file with no bounds.                                      -/
/- ------------------------------------------------------------------ -/

theorem pySlice_zero_len {α : Type} (l : List α) :
    pySlice l 0 (l.length : Int) = l := by
  have h0 : ¬ ((0 : Int) < 0) := by omega
  have h1 : ¬ ((l.length : Int) < 0) := by omega
  simp [pySlice, h0, h1, List.take_length]

example : render_file_slice "a\nb\nc" none none =
    "1 | a\n2 | b\n3 | c" := by decide
example : render_file_slice "a\nbb\ncc\ndd\nee" (some (-2)) none =
    "4 | dd\n5 | ee" := by decide
example : render_file_slice "a\nbb\ncc\ndd\nee" (some 2) (some 3) =
    "2 | bb\n3 | cc" := by decide

/-- C4: with no bounds, `read_file`'s rendering returns one output line
per source line for lines 1..min(N,500), each line being the
right-aligned 1-indexed line number, the separator, and the source line
preserved exactly; when N > 500 the truncation notice carrying the true
total N is appended. -/
theorem read_file_no_bounds_roundtrip (content : String) :
    render_file_slice content none none =
      (let ls := splitLines content
       let N := ls.length
       let k := min N MAX_FILE_LINES
       let w := (toString (k : Int)).length
       let body := String.intercalate "\n"
         (List.mapIdx (fun i line =>
            padLeft w (toString ((i : Int) + 1)) ++ " | " ++ line)
           (ls.take MAX_FILE_LINES))
       if N > MAX_FILE_LINES then
         body ++ "\n\n... truncated (" ++ toString N ++
           " total lines). Use start_line/end_line to read specific sections."
       else body) := by
  unfold render_file_slice
  simp only [pySlice_zero_len]
  set ls := splitLines content with hls
  by_cases hN : ls.length > MAX_FILE_LINES
  · have htk : (ls.take MAX_FILE_LINES).length = MAX_FILE_LINES := by
      rw [List.length_take]
      omega
    have hmin : min ls.length MAX_FILE_LINES = MAX_FILE_LINES := by omega
    have hw : (1 : Int) + ((ls.take MAX_FILE_LINES).length : Int) - 1 =
        ((min ls.length MAX_FILE_LINES : Nat) : Int) := by
      rw [htk, hmin]
      omega
    have hfun : (fun (i : Nat) (line : String) =>
        padLeft (toString ((min ls.length MAX_FILE_LINES : Nat) : Int)).length
          (toString ((1 : Int) + (i : Int))) ++ " | " ++ line) =
        (fun (i : Nat) (line : String) =>
          padLeft (toString ((min ls.length MAX_FILE_LINES : Nat) : Int)).length
            (toString ((i : Int) + 1)) ++ " | " ++ line) := by
      funext i line
      rw [Int.add_comm]
    simp only [if_pos hN, decide_eq_true_eq, hN, hw, hfun, if_pos]
  · have htk : ls.take MAX_FILE_LINES = ls := List.take_of_length_le (by omega)
    have hmin : min ls.length MAX_FILE_LINES = ls.length := by omega
    have hw : (1 : Int) + (ls.length : Int) - 1 =
        ((min ls.length MAX_FILE_LINES : Nat) : Int) := by
      rw [hmin]
      omega
    have hfun : (fun (i : Nat) (line : String) =>
        padLeft (toString ((min ls.length MAX_FILE_LINES : Nat) : Int)).length
          (toString ((1 : Int) + (i : Int))) ++ " | " ++ line) =
        (fun (i : Nat) (line : String) =>
          padLeft (toString ((min ls.length MAX_FILE_LINES : Nat) : Int)).length
            (toString ((i : Int) + 1)) ++ " | " ++ line) := by
      funext i line
      rw [Int.add_comm]
    simp only [if_neg hN, decide_eq_true_eq, htk, hw, hfun]

/- ------------------------------------------------------------------ -/
/- C1: glob mode of list_files.                                       -/
/- ------------------------------------------------------------------ -/

theorem mem_suffixes {α : Type} {t s : List α} : t ∈ suffixes s ↔ t <:+ s := by
  induction s with
  | nil => simp [suffixes]
  | cons c cs ih => simp [suffixes, List.suffix_cons_iff, ih]

theorem wildMatch_star {anySeq anyOne : Char} {ps s : List Char} :
    wildMatch anySeq anyOne (anySeq :: ps) s = true ↔
      ∃ t, t <:+ s ∧ wildMatch anySeq anyOne ps t = true := by
  simp [wildMatch, List.any_eq_true, mem_suffixes]

theorem wildMatch_cons_lit {anySeq anyOne c : Char} {ps s : List Char}
    (h1 : c ≠ anySeq) (h2 : c ≠ anyOne) :
    wildMatch anySeq anyOne (c :: ps) s = true ↔
      ∃ s2, s = c :: s2 ∧ wildMatch anySeq anyOne ps s2 = true := by
  cases s with
  | nil => simp [wildMatch, if_neg h1]
  | cons d ds =>
    simp only [wildMatch, if_neg h1, Bool.and_eq_true, Bool.or_eq_true,
      decide_eq_true_eq]
    constructor
    · rintro ⟨hcd | hcd, hrest⟩
      · exact absurd hcd h2
      · exact ⟨ds, by rw [hcd], hrest⟩
    · rintro ⟨s2, heq, hrest⟩
      injection heq with h3 h4
      subst h3
      subst h4
      exact ⟨Or.inr rfl, hrest⟩

theorem wildMatch_lit {anySeq anyOne : Char} {lit : List Char}
    (h : ∀ c ∈ lit, c ≠ anySeq ∧ c ≠ anyOne) (s : List Char) :
    wildMatch anySeq anyOne lit s = true ↔ s = lit := by
  induction lit generalizing s with
  | nil => simp [wildMatch, List.isEmpty_iff]
  | cons c cs ih =>
    have hc := h c (List.mem_cons_self c cs)
    rw [wildMatch_cons_lit hc.1 hc.2]
    constructor
    · rintro ⟨s2, rfl, hrest⟩
      rw [(ih (fun a ha => h a (List.mem_cons_of_mem c ha)) s2).mp hrest]
    · rintro rfl
      exact ⟨cs, rfl, (ih (fun a ha => h a (List.mem_cons_of_mem c ha)) cs).mpr rfl⟩

/-- What `fnmatch` makes of the glob `**/*.X`: a path matches exactly
when it contains a slash and ends with `.X` (each `*` may cross path
separators, so the leading `**/` demands some slash while a root-level
`name.X` never matches). -/
theorem fnmatch_glob_ext_iff {X : List Char}
    (hx : ∀ c ∈ X, c ≠ '*' ∧ c ≠ '?' ∧ c ≠ '/') (s : List Char) :
    wildMatch '*' '?' ('*' :: '*' :: '/' :: '*' :: '.' :: X) s = true ↔
      ('/' ∈ s ∧ ('.' :: X) <:+ s) := by
  have hlit : ∀ c ∈ ('.' :: X), c ≠ '*' ∧ c ≠ '?' := by
    intro c hc
    rcases List.mem_cons.mp hc with rfl | hc'
    · exact ⟨by decide, by decide⟩
    · exact ⟨(hx c hc').1, (hx c hc').2.1⟩
  constructor
  · intro h
    obtain ⟨t1, ht1, h⟩ := wildMatch_star.mp h
    obtain ⟨t2, ht2, h⟩ := wildMatch_star.mp h
    rw [wildMatch_cons_lit (by decide) (by decide)] at h
    obtain ⟨t3, rfl, h⟩ := h
    obtain ⟨t4, ht4, h⟩ := wildMatch_star.mp h
    rw [wildMatch_lit hlit t4] at h
    subst h
    have hchain : ('/' :: t3) <:+ s := ht2.trans ht1
    constructor
    · exact hchain.mem (List.mem_cons_self '/' t3)
    · exact (ht4.trans (List.suffix_cons '/' t3)).trans hchain
  · rintro ⟨hmem, hsuf⟩
    obtain ⟨w, hw⟩ := hsuf
    have hwslash : '/' ∈ w := by
      rw [← hw] at hmem
      rcases List.mem_append.mp hmem with h' | h'
      · exact h'
      · rcases List.mem_cons.mp h' with h'' | h''
        · exact absurd h''.symm (by decide)
        · exact absurd rfl (hx '/' h'').2.2
    obtain ⟨u, v, huv⟩ := List.append_of_mem hwslash
    have hs : s = u ++ '/' :: (v ++ '.' :: X) := by
      rw [← hw, huv]
      simp
    refine wildMatch_star.mpr ⟨s, List.suffix_refl s, ?_⟩
    refine wildMatch_star.mpr ⟨'/' :: (v ++ '.' :: X), ⟨u, hs.symm⟩, ?_⟩
    refine (wildMatch_cons_lit (by decide) (by decide)).mpr
      ⟨v ++ '.' :: X, rfl, ?_⟩
    exact wildMatch_star.mpr ⟨'.' :: X, ⟨v, rfl⟩, (wildMatch_lit hlit _).mpr rfl⟩

/-- C1 (amended): for a repo and an extension `X` free of glob
metacharacters and slashes, when at most 200 rows match, the entries
returned by `list_files` in glob mode for `**/*.X` are exactly the rows
(files and directories alike, directories rendered with a trailing
slash) whose path contains a slash and ends with `.X` — not the rows
with extension `.X`: root-level `.X` files are omitted and matching
directories are included. -/
theorem list_files_glob_ext_amended (files : List FileRow)
    (repo_id : String) (X : String)
    (hx : ∀ c ∈ X.data, c ≠ '*' ∧ c ≠ '?' ∧ c ≠ '/')
    (hcap : (list_files_glob_matched files repo_id ("**/*." ++ X)).length ≤
      MAX_LIST_RESULTS) :
    ∀ entry, entry ∈ list_files_glob_entries files repo_id ("**/*." ++ X) ↔
      ∃ r ∈ files, r.repo_id = repo_id ∧ '/' ∈ r.path.data ∧
        ('.' :: X.data) <:+ r.path.data ∧
        entry = (if r.is_directory then r.path ++ "/" else r.path) := by
  intro entry
  have hpat : ("**/*." ++ X).data = '*' :: '*' :: '/' :: '*' :: '.' :: X.data := by
    rw [String.data_append]
    rfl
  unfold list_files_glob_entries
  rw [List.take_of_length_le hcap]
  unfold list_files_glob_matched
  simp only [List.mem_map, List.mem_filter, mem_sortBy, decide_eq_true_eq]
  constructor
  · rintro ⟨r, ⟨⟨hrmem, hrepo⟩, hmatch⟩, rfl⟩
    unfold fnmatchB at hmatch
    rw [hpat] at hmatch
    obtain ⟨hslash, hsuf⟩ := (fnmatch_glob_ext_iff hx r.path.data).mp hmatch
    exact ⟨r, hrmem, hrepo, hslash, hsuf, rfl⟩
  · rintro ⟨r, hrmem, hrepo, hslash, hsuf, rfl⟩
    refine ⟨r, ⟨⟨hrmem, hrepo⟩, ?_⟩, rfl⟩
    unfold fnmatchB
    rw [hpat]
    exact (fnmatch_glob_ext_iff hx r.path.data).mpr ⟨hslash, hsuf⟩

theorem list_files_glob_ext_amended_witness :
    "src/a.py" ∈ list_files_glob_entries
      [FileRow.mk "r" "src/a.py" "a.py" (some ".py") "src" 2 false (some "x")]
      "r" ("**/*." ++ "py") :=
  (list_files_glob_ext_amended
    [FileRow.mk "r" "src/a.py" "a.py" (some ".py") "src" 2 false (some "x")]
    "r" "py" (by decide) (by decide) "src/a.py").mpr
    ⟨FileRow.mk "r" "src/a.py" "a.py" (some ".py") "src" 2 false (some "x"),
      by decide, rfl, by decide, ⟨"src/a".data, by decide⟩, rfl⟩

/-- C1 (counterexample): a repo holding the single root-level file row
`a.py` with `extension = .py` and `is_directory = false`; the claim says
the glob `**/*.py` returns it, but the code returns no entries and the
no-match message. -/
theorem list_files_glob_ext_counterexample :
    (FileRow.mk "r" "a.py" "a.py" (some ".py") "" 1 false
      (some "x")).extension = some ".py" ∧
    (FileRow.mk "r" "a.py" "a.py" (some ".py") "" 1 false
      (some "x")).is_directory = false ∧
    list_files_glob_entries
      [FileRow.mk "r" "a.py" "a.py" (some ".py") "" 1 false (some "x")]
      "r" "**/*.py" = [] ∧
    list_files
      [FileRow.mk "r" "a.py" "a.py" (some ".py") "" 1 false (some "x")]
      "r" "**/*.py" = "No files matching: **/*.py" := by decide

/- ------------------------------------------------------------------ -/
/- C9: search_code monotonicity under added literals.                 -/
/- ------------------------------------------------------------------ -/

theorem substrB_iff {needle hay : List Char} :
    substrB needle hay = true ↔ ∃ u v, hay = u ++ needle ++ v := by
  induction hay with
  | nil =>
    simp only [substrB, List.isEmpty_iff]
    constructor
    · rintro rfl
      exact ⟨[], [], rfl⟩
    · rintro ⟨u, v, huv⟩
      rcases List.append_eq_nil.mp
        (List.append_eq_nil.mp huv.symm).1 with ⟨-, h2⟩
      exact h2
  | cons c cs ih =>
    simp only [substrB, Bool.or_eq_true, ih]
    constructor
    · rintro (hpre | ⟨u, v, rfl⟩)
      · obtain ⟨t, ht⟩ := Iff.mp List.isPrefixOf_iff_prefix hpre
        exact ⟨[], t, by simp [← ht]⟩
      · exact ⟨c :: u, v, rfl⟩
    · rintro ⟨u, v, huv⟩
      cases u with
      | nil =>
        left
        refine Iff.mpr List.isPrefixOf_iff_prefix ⟨v, ?_⟩
        simpa using huv.symm
      | cons a u' =>
        right
        refine ⟨u', v, ?_⟩
        have := huv
        simp only [List.cons_append, List.cons.injEq] at this
        exact this.2

theorem substrB_trans (a b c : List Char) (hab : substrB a b = true)
    (hbc : substrB b c = true) : substrB a c = true := by
  rw [substrB_iff] at hab hbc ⊢
  obtain ⟨u1, v1, rfl⟩ := hab
  obtain ⟨u2, v2, rfl⟩ := hbc
  exact ⟨u2 ++ u1, v1 ++ v2, by simp⟩

/-- C9 (amended): adding a literal to a pattern cannot increase the set
of emitted matches provided (i) every line matched by the new compiled
pattern is matched by the old one, (ii) every content accepted by the
new literal prefilter is accepted by the old one, and (iii) the old
pattern's full match sequence is within the 50-match cap.  The original
unconditional claim is false (`search_code_monotone_counterexample`). -/
theorem search_code_monotone_amended (files : List FileRow)
    (repo_id : String) (P Pn : String) (m mn : String → Bool)
    (glob : Option String)
    (hline : ∀ s, mn s = true → m s = true)
    (hlits : ∀ content : Option String,
      literalsPass (extract_literals Pn) content = true →
      literalsPass (extract_literals P) content = true)
    (hcap : (search_matches files repo_id P m glob).length ≤
      MAX_SEARCH_MATCHES) :
    ∀ x, x ∈ search_matches_capped files repo_id Pn mn glob →
      x ∈ search_matches_capped files repo_id P m glob := by
  intro x hx
  have hx' : x ∈ search_matches files repo_id Pn mn glob :=
    List.mem_of_mem_take hx
  unfold search_matches_capped
  rw [List.take_of_length_le hcap]
  unfold search_matches at hx' ⊢
  rw [List.mem_flatMap] at hx' ⊢
  obtain ⟨r, hr, hxline⟩ := hx'
  refine ⟨r, ?_, ?_⟩
  · unfold search_candidates at hr ⊢
    rw [mem_sortBy, List.mem_filter] at hr ⊢
    refine ⟨hr.1, ?_⟩
    have hp := hr.2
    simp only [Bool.and_eq_true] at hp ⊢
    exact ⟨⟨hp.1.1, hlits r.content hp.1.2⟩, hp.2⟩
  · rw [List.mem_filterMap] at hxline ⊢
    obtain ⟨p, hpmem, hpe⟩ := hxline
    refine ⟨p, hpmem, ?_⟩
    by_cases hm : mn p.2 = true
    · rw [if_pos hm] at hpe
      rw [if_pos (hline p.2 hm)]
      exact hpe
    · rw [if_neg hm] at hpe
      exact absurd hpe (by simp)

theorem search_code_monotone_amended_witness :
    ("f", 1, "abcdef") ∈ search_matches_capped
      [FileRow.mk "r" "f" "f" none "" 1 false (some "abcdef")]
      "r" "abc" (fun s => substrB "abc".data s.data) none :=
  search_code_monotone_amended
    [FileRow.mk "r" "f" "f" none "" 1 false (some "abcdef")]
    "r" "abc" "abcdef"
    (fun s => substrB "abc".data s.data)
    (fun s => substrB "abcdef".data s.data) none
    (fun s hs => substrB_trans _ _ _ (by decide) hs)
    (fun content h => by
      cases content with
      | none => exact absurd h (by decide)
      | some s =>
        have hext : extract_literals "abcdef" = ["abcdef"] := by decide
        have hext2 : extract_literals "abc" = ["abc"] := by decide
        rw [hext] at h
        rw [hext2]
        simp only [literalsPass, List.all_cons, List.all_nil,
          Bool.and_true] at h ⊢
        exact substrB_trans _ _ _ (by decide) h)
    (by decide)
    ("f", 1, "abcdef") (by decide)

/-- C9 (counterexample): the pattern `a-xyz-b`, obtained from `a--b` by
inserting the literal `xyz` (a maximal word run of length 3), emits a
match the base pattern does not: both patterns are metacharacter-free
regexes, so `re.search` is substring containment, modelled by
`substrB`. -/
theorem search_code_monotone_counterexample :
    "a--b" = "a-" ++ "-b" ∧ "a-xyz-b" = "a-" ++ "xyz" ++ "-b" ∧
    extract_literals "a--b" = [] ∧
    extract_literals "a-xyz-b" = ["xyz"] ∧
    search_matches_capped
      [FileRow.mk "r" "f" "f" none "" 1 false (some "a-xyz-b")]
      "r" "a-xyz-b" (fun s => substrB "a-xyz-b".data s.data) none =
      [("f", 1, "a-xyz-b")] ∧
    search_matches_capped
      [FileRow.mk "r" "f" "f" none "" 1 false (some "a-xyz-b")]
      "r" "a--b" (fun s => substrB "a--b".data s.data) none = [] := by
  decide

/- ------------------------------------------------------------------ -/
/- C8: the context selector's scoring formula.                        -/
/- ------------------------------------------------------------------ -/

/-- The selector's score written as the closed formula of the spec,
with the source-file component as the code computes it: a source file
counts when some question token occurs as a substring of its
transformed basename. -/
def pageScoreSpec (question : String) (page : ManifestPage) : ℚ :=
  3 * (((((pySplit (lowerStr question)).dedup).filter
        (fun t => t ∈ (pySplit (lowerStr page.title)).dedup)).length : ℚ)) /
      ((max ((pySplit (lowerStr question)).dedup).length 1 : Nat) : ℚ) +
  2 * (((((pySplit (lowerStr question)).dedup).filter
        (fun t => t ∈ (pySplit (lowerStr page.summary)).dedup)).length : ℚ)) /
      ((max ((pySplit (lowerStr question)).dedup).length 1 : Nat) : ℚ) +
  5 * ((page.key_exports.countP
        (fun e => substrB (lowerStr e).data (lowerStr question).data) : Nat) : ℚ) +
  2 * ((page.source_files.countP
        (fun f => ((pySplit (lowerStr question)).dedup).any
          (fun t => substrB t.data (lowerStr (sourceFileName f)).data)) : Nat) : ℚ)

/-- The selector restated from the closed score formula. -/
def select_context_pages_spec (pages : List ManifestPage) (question : String)
    (max_pages : Nat) : List String :=
  ((sortBy (fun a b => decide (b.2 ≤ a.2))
      ((pages.filter (fun p => pageScoreSpec question p > 0)).map
        (fun p => (p.slug, pageScoreSpec question p)))).take max_pages).map
    (fun p => p.1)

/-- The score under the claim's reading of the source-file component:
a source file counts when its transformed basename SHARES A TOKEN with
the question (instead of containing a question token as a substring). -/
def pageScoreClaimed (question : String) (page : ManifestPage) : ℚ :=
  3 * (((((pySplit (lowerStr question)).dedup).filter
        (fun t => t ∈ (pySplit (lowerStr page.title)).dedup)).length : ℚ)) /
      ((max ((pySplit (lowerStr question)).dedup).length 1 : Nat) : ℚ) +
  2 * (((((pySplit (lowerStr question)).dedup).filter
        (fun t => t ∈ (pySplit (lowerStr page.summary)).dedup)).length : ℚ)) /
      ((max ((pySplit (lowerStr question)).dedup).length 1 : Nat) : ℚ) +
  5 * ((page.key_exports.countP
        (fun e => substrB (lowerStr e).data (lowerStr question).data) : Nat) : ℚ) +
  2 * ((page.source_files.countP
        (fun f => ((pySplit (lowerStr (sourceFileName f)))).any
          (fun tok => tok ∈ (pySplit (lowerStr question)).dedup)) : Nat) : ℚ)

/-- The selector under the claim's token-sharing reading. -/
def select_context_pages_claimed (pages : List ManifestPage)
    (question : String) (max_pages : Nat) : List String :=
  ((sortBy (fun a b => decide (b.2 ≤ a.2))
      ((pages.filter (fun p => pageScoreClaimed question p > 0)).map
        (fun p => (p.slug, pageScoreClaimed question p)))).take max_pages).map
    (fun p => p.1)

theorem foldl_if_add {α : Type} (p : α → Bool) (c : ℚ) (l : List α) :
    ∀ s0 : ℚ, l.foldl (fun s e => if p e then s + c else s) s0 =
      s0 + c * (l.countP p : ℚ) := by
  induction l with
  | nil => intro s0; simp
  | cons a l ih =>
    intro s0
    rw [List.foldl_cons, ih, List.countP_cons]
    by_cases hp : p a = true
    · simp only [if_pos hp, hp]
      push_cast
      ring
    · simp only [if_neg hp, hp]
      push_cast
      ring

theorem foldl_append_if {α β : Type} (P : α → Prop) [DecidablePred P]
    (f : α → β) (l : List α) :
    ∀ acc : List β,
      l.foldl (fun acc p => if P p then acc ++ [f p] else acc) acc =
        acc ++ (l.filter (fun p => decide (P p))).map f := by
  induction l with
  | nil => intro acc; simp
  | cons a l ih =>
    intro acc
    rw [List.foldl_cons]
    by_cases hP : P a
    · rw [if_pos hP, ih]
      simp [List.filter_cons, hP]
    · rw [if_neg hP, ih]
      simp [List.filter_cons, hP]

theorem if_not_isEmpty_score {α : Type} (l : List α) (s add : ℚ)
    (h : l.isEmpty = true → add = 0) :
    (if (!l.isEmpty) = true then s + add else s) = s + add := by
  cases hl : l.isEmpty
  · simp
  · simp [h hl]

theorem pageScore_eq_spec (question : String) (page : ManifestPage) :
    pageScore (lowerStr question) ((pySplit (lowerStr question)).dedup) page =
      pageScoreSpec question page := by
  unfold pageScore pageScoreSpec
  simp only []
  rw [foldl_if_add, foldl_if_add]
  rw [if_not_isEmpty_score _ _ _ (fun h => by
    rw [List.isEmpty_iff.mp h]
    simp)]
  rw [if_not_isEmpty_score _ _ _ (fun h => by
    rw [List.isEmpty_iff.mp h]
    simp)]
  push_cast
  ring

theorem select_eq_spec (pages : List ManifestPage) (question : String)
    (max_pages : Nat) :
    select_context_pages pages question max_pages =
      select_context_pages_spec pages question max_pages := by
  unfold select_context_pages select_context_pages_spec
  simp only []
  rw [foldl_append_if
    (fun page => pageScore (lowerStr question)
      ((pySplit (lowerStr question)).dedup) page > 0)
    (fun page => (page.slug, pageScore (lowerStr question)
      ((pySplit (lowerStr question)).dedup) page)) pages []]
  have hfun : pageScore (lowerStr question)
      ((pySplit (lowerStr question)).dedup) = pageScoreSpec question :=
    funext (pageScore_eq_spec question)
  rw [hfun]
  simp

/-- C8 (amended): the selector scores each page as
3·(|q∩title|/max(|q|,1)) + 2·(|q∩summary|/max(|q|,1)) + 5·(count of
key_exports appearing as case-insensitive substrings of the question)
+ 2·(count of source_files whose basename, with underscores replaced by
spaces and every occurrence of `.py` removed, CONTAINS at least one
question token as a substring, case-insensitively) — not "shares a
token" — and returns up to max_pages slugs of strictly positive score
in descending order, ties by insertion order (float arithmetic modelled
as exact rationals). -/
theorem select_context_pages_amended (pages : List ManifestPage)
    (question : String) (max_pages : Nat) :
    select_context_pages pages question max_pages =
      select_context_pages_spec pages question max_pages :=
  select_eq_spec pages question max_pages

/-- The page of the C8 counterexample: empty title and summary, no
exports, one source file `authentication.py`. -/
def cexPage : ManifestPage :=
  ManifestPage.mk "auth-page" "" "" [] ["authentication.py"]

theorem cexPage_score_spec : pageScoreSpec "cat" cexPage = 2 := by
  unfold pageScoreSpec
  have c1 : (((pySplit (lowerStr "cat")).dedup).filter
      (fun t => t ∈ (pySplit (lowerStr cexPage.title)).dedup)).length = 0 := by
    decide
  have c2 : (((pySplit (lowerStr "cat")).dedup).filter
      (fun t => t ∈ (pySplit (lowerStr cexPage.summary)).dedup)).length = 0 := by
    decide
  have c3 : (cexPage.key_exports.countP
      (fun e => substrB (lowerStr e).data (lowerStr "cat").data)) = 0 := by
    decide
  have c4 : (cexPage.source_files.countP
      (fun f => ((pySplit (lowerStr "cat")).dedup).any
        (fun t => substrB t.data (lowerStr (sourceFileName f)).data))) = 1 := by
    decide
  have c5 : ((max ((pySplit (lowerStr "cat")).dedup).length 1 : Nat)) = 1 := by
    decide
  rw [c1, c2, c3, c4, c5]
  norm_num

theorem cexPage_score_claimed : pageScoreClaimed "cat" cexPage = 0 := by
  unfold pageScoreClaimed
  have c1 : (((pySplit (lowerStr "cat")).dedup).filter
      (fun t => t ∈ (pySplit (lowerStr cexPage.title)).dedup)).length = 0 := by
    decide
  have c2 : (((pySplit (lowerStr "cat")).dedup).filter
      (fun t => t ∈ (pySplit (lowerStr cexPage.summary)).dedup)).length = 0 := by
    decide
  have c3 : (cexPage.key_exports.countP
      (fun e => substrB (lowerStr e).data (lowerStr "cat").data)) = 0 := by
    decide
  have c4 : (cexPage.source_files.countP
      (fun f => ((pySplit (lowerStr (sourceFileName f)))).any
        (fun tok => tok ∈ (pySplit (lowerStr "cat")).dedup))) = 0 := by
    decide
  have c5 : ((max ((pySplit (lowerStr "cat")).dedup).length 1 : Nat)) = 1 := by
    decide
  rw [c1, c2, c3, c4, c5]
  norm_num

/-- C8 (counterexample): for the question `cat` and a page whose only
signal is the source file `authentication.py`, the code returns the
page (because `cat` is a substring of `authentication`), while the
claim's token-sharing formula scores it 0 and omits it. -/
theorem select_context_pages_counterexample :
    select_context_pages [cexPage] "cat" 5 = ["auth-page"] ∧
    select_context_pages_claimed [cexPage] "cat" 5 = [] := by
  constructor
  · rw [select_eq_spec]
    unfold select_context_pages_spec
    simp only [List.filter_cons, List.filter_nil, cexPage_score_spec]
    rw [if_pos (by norm_num)]
    simp [sortBy, insertBy, cexPage]
  · unfold select_context_pages_claimed
    simp only [List.filter_cons, List.filter_nil, cexPage_score_claimed]
    rw [if_neg (by norm_num)]
    simp [sortBy]
